import Mathlib

/-!
SubTakeOver: the probe and the probe coordinator of `main.go`

A shallow embedding of `checkSubdomain` and `processSubdomains` together with the
parts of the Go standard library they call.

Modelling conventions.

* A Go `string` is a Lean `String`, read as the sequence of runes the Go `regexp`
  decoder sees. The prefixes tested by the program are ASCII, so testing them rune
  by rune agrees with Go's byte-wise test on every valid UTF-8 input (the hostnames
  arrive through `encoding/json`, which only produces valid UTF-8).
* A Go `error` is the text of its `Error()` method; a fallible library call returns
  `Except String α`, `.error msg` being the non-nil error.
* `net.LookupCNAME` and `(*http.Client).Get` are parameters: total functions from
  the argument of the call to its outcome. A call that never returns is outside
  the model.
-/


namespace SubTakeOver

/-! ## `strings` -/

namespace strings

/-- Go `strings.HasPrefix`: `len(s) >= len(pfx) && s[:len(pfx)] == pfx`. -/
def HasPrefix (s pfx : String) : Bool :=
  decide (pfx.data.length ≤ s.data.length) && (s.data.take pfx.data.length == pfx.data)

/-- Go `strings.TrimPrefix`: `s` without the leading `pfx`, or `s` itself when it
does not start with `pfx`. -/
def TrimPrefix (s pfx : String) : String :=
  if HasPrefix s pfx then String.mk (s.data.drop pfx.data.length) else s

end strings

/-! ## `regexp`, on the fragment of the RE2 syntax the catalog is written in -/

namespace regexp

/-- One instruction of a compiled pattern: a literal rune, or `.` which under the
flags of `regexp.Compile` (no `s` flag) is any rune except the newline. -/
inductive Inst where
  | Rune (c : Char)
  | AnyCharNotNL
  deriving DecidableEq

/-- The runes the RE2 parser does not read as themselves. -/
def special : List Char :=
  ['\\', '.', '+', '*', '?', '(', ')', '|', '[', '{', '^', '$']

/-- Go `isalnum` of `regexp/syntax`. -/
def isalnum (c : Char) : Bool :=
  ('0' ≤ c && c ≤ '9') || ('A' ≤ c && c ≤ 'Z') || ('a' ≤ c && c ≤ 'z')

/-- The parser restricted to concatenations of literal runes, `.` and escaped
punctuation (`\` followed by an ASCII rune that is not alphanumeric stands for that
rune). `none` is a pattern this model does not compile: a dangling `\`, or an
operator outside the fragment. -/
def compile : List Char → Option (List Inst)
  | [] => some []
  | '\\' :: c :: rest =>
    if c.toNat < 128 && !isalnum c then (compile rest).map (Inst.Rune c :: ·) else none
  | '.' :: rest => (compile rest).map (Inst.AnyCharNotNL :: ·)
  | c :: rest =>
    if special.contains c then none else (compile rest).map (Inst.Rune c :: ·)

/-- Whether an instruction accepts a rune. -/
def Inst.accepts : Inst → Char → Bool
  | .Rune c, r => r == c
  | .AnyCharNotNL, r => r != '\n'

/-- The program matches a prefix of the input. -/
def matchHere : List Inst → List Char → Bool
  | [], _ => true
  | _ :: _, [] => false
  | i :: prog, r :: input => i.accepts r && matchHere prog input

/-- The program matches at some position of the input (an unanchored search). -/
def search (prog : List Inst) : List Char → Bool
  | [] => matchHere prog []
  | r :: input => matchHere prog (r :: input) || search prog input

/-- Go `regexp.MatchString(pattern, s)`: `(matched, err)`, with `matched = false`
whenever the pattern does not compile. -/
def MatchString (pattern s : String) : Bool × Option String :=
  match compile pattern.data with
  | some prog => (search prog s.data, none)
  | none => (false, some "error parsing regexp")

end regexp

/-! ## The data model of `main.go` -/

/-- Go `type Service struct`. -/
structure Service where
  Name : String
  Regex : String
  deriving DecidableEq

/-- Go `var services`, in source order. The second pattern is the raw string
whose text has two backslashes before the apostrophe. -/
def services : List Service := [
  { Name := "AWS/S3", Regex := "The specified bucket does not exist" },
  { Name := "GitHub", Regex := "There isn\\\\'t a GitHub Pages site here" },
  { Name := "Heroku", Regex := "no such app" },
  { Name := "Fastly", Regex := "Fastly error: unknown domain" },
  { Name := "Shopify", Regex := "Sorry, this shop is currently unavailable." },
  { Name := "BitBucket", Regex := "Repository not found" }
]

/-- Go `type SubdomainResult struct`; every field starts at its zero value. -/
structure SubdomainResult where
  Subdomain : String := ""
  Vulnerable : Bool := false
  Service : String := ""
  CNAME : String := ""
  HTTPStatus : Int := 0
  ErrorMessage : String := ""
  deriving DecidableEq

namespace http

/-- What the program reads of a `*http.Response`: the status code, and the outcome
of `ioutil.ReadAll(resp.Body)`. -/
structure Response where
  StatusCode : Int
  Body : Except String String

/-- A `*http.Client`, as the behaviour of its `Get` method. -/
structure Client where
  Get : String → Except String Response

end http

/-- The calls a probe makes to its collaborators, with their arguments. -/
inductive Call where
  | LookupCNAME (host : String)
  | Get (url : String)
  | ReadAll
  | Close
  deriving DecidableEq

/-- The `for _, service := range services` loop of `checkSubdomain` (lines 79-89):
the first entry whose pattern matches sets `Vulnerable` and `Service` and returns;
after the loop `Vulnerable` is set to `false`. -/
def checkSubdomain.scan (content : String) (result : SubdomainResult) :
    List Service → SubdomainResult
  | [] => { result with Vulnerable := false }
  | service :: rest =>
    let (matched, _) := regexp.MatchString service.Regex content
    if matched then
      { result with Vulnerable := true, Service := service.Name }
    else
      checkSubdomain.scan content result rest

/-- Go `checkSubdomain` (lines 46-90), returning the result together with the
calls made, in the order they are made. `Close` is the deferred
`resp.Body.Close()`. -/
def checkSubdomain.run (LookupCNAME : String → Except String String)
    (url : String) (client : http.Client) : SubdomainResult × List Call :=
  let result : SubdomainResult := { Subdomain := url }
  let url := if !strings.HasPrefix url "http" then "http://" ++ url else url
  let host := strings.TrimPrefix url "http://"
  let result :=
    match LookupCNAME host with
    | .ok cname => { result with CNAME := cname }
    | .error err => { result with ErrorMessage := "DNS lookup failed: " ++ err }
  match client.Get url with
  | .error err =>
    ({ result with ErrorMessage := "HTTP request failed: " ++ err },
      [.LookupCNAME host, .Get url])
  | .ok resp =>
    let result := { result with HTTPStatus := resp.StatusCode }
    match resp.Body with
    | .error err =>
      ({ result with ErrorMessage := "Failed to read response body: " ++ err },
        [.LookupCNAME host, .Get url, .ReadAll, .Close])
    | .ok body =>
      (checkSubdomain.scan body result services,
        [.LookupCNAME host, .Get url, .ReadAll, .Close])

/-- Go `checkSubdomain`: the `SubdomainResult` it returns. -/
def checkSubdomain (LookupCNAME : String → Except String String)
    (url : String) (client : http.Client) : SubdomainResult :=
  (checkSubdomain.run LookupCNAME url client).1

/-- The calls `checkSubdomain` makes. -/
def checkSubdomain.calls (LookupCNAME : String → Except String String)
    (url : String) (client : http.Client) : List Call :=
  (checkSubdomain.run LookupCNAME url client).2

/-! ## `processSubdomains`: the goroutines, the `WaitGroup` and the channel -/

/-- Where a goroutine launched at line 100 stands: before the send of line 102,
between the send and the deferred `wg.Done()`, or returned. -/
inductive Phase where
  | Probing
  | Sent
  | Done
  deriving DecidableEq

/-- A goroutine of line 100: its argument `url`, the `client` its closure
captured, and where it stands. -/
structure Goroutine where
  url : String
  client : http.Client
  phase : Phase

/-- Where the body of `processSubdomains` stands: in the loop of lines 98-104 with
the hostnames still to launch, at `wg.Wait()` (106), at `close(resultsChan)`
(107), in the `range` loop (109-111), or returned (113). -/
inductive PC where
  | Loop (rest : List String)
  | Wait
  | Close
  | Range
  | Return
  deriving DecidableEq

/-- The state of one call of `processSubdomains`. `resultsChan` is the buffer of
the channel, oldest value first. -/
structure State where
  pc : PC
  wg : Nat
  goroutines : List Goroutine
  resultsChan : List SubdomainResult
  capacity : Nat
  closed : Bool
  results : List SubdomainResult
  client : http.Client

/-- A thread of control: the caller, or the `i`-th goroutine launched. -/
inductive Thread where
  | main
  | go (i : Nat)
  deriving DecidableEq

/-- What happens when a thread is scheduled. -/
inductive Outcome where
  | next (s : State)
  | blocked
  | exited
  | panic (msg : String)

/-- Lines 93-96: the state before the loop. -/
def processSubdomains.init (client : http.Client) (subdomains : List String) : State :=
  { pc := .Loop subdomains
    wg := 0
    goroutines := []
    resultsChan := []
    capacity := subdomains.length
    closed := false
    results := []
    client := client }

/-- One atomic step of a thread, following the Go semantics of `sync.WaitGroup`
and of a buffered channel. -/
def processSubdomains.step (LookupCNAME : String → Except String String)
    (s : State) : Thread → Outcome
  | .main =>
    match s.pc with
    | .Loop (subdomain :: rest) =>
      -- lines 99-103: `wg.Add(1)`, then `go func(url string) ... (subdomain)`
      .next { s with
        pc := .Loop rest
        wg := s.wg + 1
        goroutines :=
          s.goroutines ++ [{ url := subdomain, client := s.client, phase := .Probing }] }
    | .Loop [] => .next { s with pc := .Wait }
    | .Wait =>
      -- line 106: `wg.Wait()` returns once the counter is zero
      if s.wg = 0 then .next { s with pc := .Close } else .blocked
    | .Close =>
      -- line 107
      if s.closed then .panic "close of closed channel"
      else .next { s with closed := true, pc := .Range }
    | .Range =>
      -- lines 109-111: receive until the channel is closed and empty
      match s.resultsChan with
      | result :: rest =>
        .next { s with resultsChan := rest, results := s.results ++ [result] }
      | [] => if s.closed then .next { s with pc := .Return } else .blocked
    | .Return => .exited
  | .go i =>
    match s.goroutines[i]? with
    | none => .exited
    | some g =>
      match g.phase with
      | .Probing =>
        -- line 102: `resultsChan <- checkSubdomain(url, client)`
        if s.closed then .panic "send on closed channel"
        else if s.resultsChan.length < s.capacity then
          .next { s with
            resultsChan := s.resultsChan ++ [checkSubdomain LookupCNAME g.url g.client]
            goroutines := s.goroutines.set i { g with phase := .Sent } }
        else .blocked
      | .Sent =>
        -- line 101: the deferred `wg.Done()`
        if s.wg = 0 then .panic "sync: negative WaitGroup counter"
        else .next { s with
          wg := s.wg - 1
          goroutines := s.goroutines.set i { g with phase := .Done } }
      | .Done => .exited

/-- The threads that exist in a state. -/
def processSubdomains.threads (s : State) : List Thread :=
  .main :: (List.range s.goroutines.length).map .go

/-- Whether scheduling the thread does something (a step or a panic). -/
def Outcome.runs : Outcome → Bool
  | .next _ => true
  | .panic _ => true
  | _ => false

/-- The threads the scheduler may pick. -/
def processSubdomains.runnable (LookupCNAME : String → Except String String)
    (s : State) : List Thread :=
  (processSubdomains.threads s).filter fun t => (processSubdomains.step LookupCNAME s t).runs

/-- Run under a scheduler: at each step `sched` picks one of the runnable threads
(by its index among them, modulo their number). The run ends with the returned
slice, or with the text of the failure. -/
def processSubdomains.exec (LookupCNAME : String → Except String String)
    (sched : Nat → Nat) : Nat → State → Except String (List SubdomainResult)
  | 0, s => if s.pc = .Return then .ok s.results else .error "out of fuel"
  | fuel + 1, s =>
    if s.pc = .Return then .ok s.results
    else
      match processSubdomains.runnable LookupCNAME s with
      | [] => .error "all goroutines are asleep - deadlock!"
      | t :: ts =>
        match processSubdomains.step LookupCNAME s
            ((t :: ts).getD (sched fuel % (ts.length + 1)) t) with
        | .next s' => processSubdomains.exec LookupCNAME sched fuel s'
        | .panic msg => .error msg
        | _ => .error "scheduled a thread that cannot run"

/-- Go `processSubdomains` (lines 92-114) under the scheduler `sched`; `client` is
the `&http.Client{}` of line 96. Each hostname costs four steps (launch, send,
`wg.Done()`, receive) and the caller four more. -/
def processSubdomains (LookupCNAME : String → Except String String)
    (client : http.Client) (sched : Nat → Nat) (subdomains : List String) :
    Except String (List SubdomainResult) :=
  processSubdomains.exec LookupCNAME sched (4 * subdomains.length + 4)
    (processSubdomains.init client subdomains)

/-- The states a call of `processSubdomains` can be in, under any interleaving. -/
inductive processSubdomains.Reachable (LookupCNAME : String → Except String String)
    (client : http.Client) (subdomains : List String) : State → Prop
  | init : Reachable LookupCNAME client subdomains (processSubdomains.init client subdomains)
  | step {s s' : State} (t : Thread) :
      Reachable LookupCNAME client subdomains s →
      processSubdomains.step LookupCNAME s t = .next s' →
      Reachable LookupCNAME client subdomains s'

/-! ## What the proofs about `processSubdomains` are stated with -/

/-- The hostnames the loop of lines 98-104 has still to launch. -/
def PC.rest : PC → List String
  | .Loop rest => rest
  | _ => []

/-- The steps a goroutine has still to take. The send counts for two: the value
it puts in the channel is one more receive for the caller. -/
def Phase.weight : Phase → Nat
  | .Probing => 3
  | .Sent => 1
  | .Done => 0

/-- The steps the caller has still to take on its own account. -/
def PC.weight : PC → Nat
  | .Loop rest => 4 * rest.length + 4
  | .Wait => 3
  | .Close => 2
  | .Range => 1
  | .Return => 0

/-- A bound on the number of steps left before every thread has returned. -/
def State.stepsLeft (s : State) : Nat :=
  s.pc.weight + (s.goroutines.map fun g => g.phase.weight).sum + s.resultsChan.length

/-- The invariant of a call `processSubdomains(subdomains)` whose client is
`client`. -/
structure processSubdomains.Inv (LookupCNAME : String → Except String String)
    (client : http.Client) (subdomains : List String) (s : State) : Prop where
  capacity : s.capacity = subdomains.length
  client_eq : s.client = client
  launched : s.goroutines.map Goroutine.url ++ s.pc.rest = subdomains
  shared : ∀ g ∈ s.goroutines, g.client = client
  counter : s.wg = s.goroutines.countP fun g => g.phase != .Done
  handed : (s.results ++ s.resultsChan).Perm
    ((s.goroutines.filter fun g => g.phase != .Probing).map
      fun g => checkSubdomain LookupCNAME g.url g.client)
  closed : s.closed = true ↔ s.pc = .Range ∨ s.pc = .Return
  joined : s.pc = .Close ∨ s.pc = .Range ∨ s.pc = .Return →
    ∀ g ∈ s.goroutines, g.phase = .Done
  unread : s.pc ≠ .Range → s.pc ≠ .Return → s.results = []
  drained : s.pc = .Return → s.resultsChan = []

/-- The state after the given threads are scheduled in turn; a thread that cannot
step when its turn comes is passed over. -/
def processSubdomains.after (LookupCNAME : String → Except String String) (s : State) :
    List Thread → State
  | [] => s
  | t :: ts =>
    match processSubdomains.step LookupCNAME s t with
    | .next s' => processSubdomains.after LookupCNAME s' ts
    | _ => processSubdomains.after LookupCNAME s ts

/-! ## Collaborators for the concrete scenarios -/

namespace Example

/-- A resolver for which every lookup fails. -/
def noSuchHost : String → Except String String :=
  fun _ => .error "no such host"

/-- A resolver for which every lookup succeeds, with the rooted name. -/
def resolves : String → Except String String :=
  fun host => .ok (host ++ ".")

/-- A client every GET of which fails. -/
def refused : http.Client :=
  { Get := fun _ => .error "connection refused" }

/-- A client every GET of which is answered with the given status and body. -/
def serving (status : Int) (body : String) : http.Client :=
  { Get := fun _ => .ok { StatusCode := status, Body := .ok body } }

/-- A client every GET of which is answered, the body then failing to read. -/
def truncated (status : Int) : http.Client :=
  { Get := fun _ => .ok { StatusCode := status, Body := .error "unexpected EOF" } }

/-- The two hosts of the scenario of the specification. -/
def scenario : http.Client :=
  { Get := fun u =>
      if u == "http://abandoned.example.com" then
        .ok { StatusCode := 404, Body := .ok "<Error>The specified bucket does not exist</Error>" }
      else
        .ok { StatusCode := 200, Body := .ok "hello" } }

/-- A page with the sentence of GitHub Pages twice: with a plain apostrophe, and
with a backslash before the apostrophe. -/
def bothApostrophes : String :=
  "There isn't a GitHub Pages site here. There isn\\'t a GitHub Pages site here."

/-- A run on the two hosts of the scenario in which the second goroutine sends
before the first. -/
def outOfOrder : State :=
  processSubdomains.after noSuchHost
    (processSubdomains.init scenario ["good.example.com", "abandoned.example.com"])
    [.main, .main, .go 1, .main, .go 1, .go 0, .go 0, .main, .main, .main, .main, .main]

end Example

/-! ## Library lemmas -/

theorem strings.append_ne_empty (a b : String) (ha : a ≠ "") : a ++ b ≠ "" := by
  intro h
  have h1 : (a ++ b).data = "".data := by rw [h]
  rw [String.data_append] at h1
  have h2 : a.data = [] := (List.append_eq_nil.mp h1).1
  exact ha (String.ext h2)

theorem strings.hasPrefix_append (pfx s : String) : strings.HasPrefix (pfx ++ s) pfx = true := by
  simp [strings.HasPrefix, String.data_append]

theorem strings.trimPrefix_append (pfx s : String) : strings.TrimPrefix (pfx ++ s) pfx = s := by
  simp [strings.TrimPrefix, strings.hasPrefix_append, String.data_append]

theorem strings.hasPrefix_iff (s pfx : String) :
    strings.HasPrefix s pfx = true ↔ ∃ t : String, s = pfx ++ t := by
  constructor
  · intro h
    simp only [strings.HasPrefix, Bool.and_eq_true, decide_eq_true_eq, beq_iff_eq] at h
    refine ⟨String.mk (s.data.drop pfx.data.length), String.ext ?_⟩
    rw [String.data_append]
    conv_lhs => rw [← List.take_append_drop pfx.data.length s.data]
    rw [h.2]
  · rintro ⟨t, rfl⟩
    exact strings.hasPrefix_append pfx t

theorem strings.hasPrefix_http (url : String)
    (h : strings.HasPrefix url "http://" = true ∨ strings.HasPrefix url "https://" = true) :
    strings.HasPrefix url "http" = true := by
  rw [strings.hasPrefix_iff] at h ⊢
  rw [strings.hasPrefix_iff] at h
  rcases h with ⟨t, rfl⟩ | ⟨t, rfl⟩
  · exact ⟨"://" ++ t, by rw [← String.append_assoc]; rfl⟩
  · exact ⟨"s://" ++ t, by rw [← String.append_assoc]; rfl⟩

/-! ## Lemmas on the matcher -/

theorem regexp.matchHere_runes (lits input : List Char) :
    regexp.matchHere (lits.map regexp.Inst.Rune) input = true ↔
      ∃ post, input = lits ++ post := by
  induction lits generalizing input with
  | nil => simp [regexp.matchHere]
  | cons c lits ih =>
    cases input with
    | nil => simp [regexp.matchHere]
    | cons r input =>
      simp only [List.map_cons, regexp.matchHere, regexp.Inst.accepts, Bool.and_eq_true,
        beq_iff_eq, ih, List.cons_append, List.cons.injEq]
      constructor
      · rintro ⟨rfl, post, rfl⟩
        exact ⟨post, rfl, rfl⟩
      · rintro ⟨post, rfl, rfl⟩
        exact ⟨rfl, post, rfl⟩

theorem regexp.search_iff (prog : List regexp.Inst) (input : List Char) :
    regexp.search prog input = true ↔
      ∃ pre rest, input = pre ++ rest ∧ regexp.matchHere prog rest = true := by
  induction input with
  | nil =>
    simp only [regexp.search]
    constructor
    · intro h
      exact ⟨[], [], rfl, h⟩
    · rintro ⟨pre, rest, h, hm⟩
      have h1 : rest = [] := (List.append_eq_nil.mp h.symm).2
      rw [h1] at hm
      exact hm
  | cons r input ih =>
    simp only [regexp.search, Bool.or_eq_true, ih]
    constructor
    · rintro (h | ⟨pre, rest, rfl, hm⟩)
      · exact ⟨[], r :: input, rfl, h⟩
      · exact ⟨r :: pre, rest, rfl, hm⟩
    · rintro ⟨pre, rest, h, hm⟩
      cases pre with
      | nil =>
        left
        simp only [List.nil_append] at h
        rw [h]
        exact hm
      | cons p pre =>
        right
        simp only [List.cons_append, List.cons.injEq] at h
        exact ⟨pre, rest, h.2, hm⟩

/-- A pattern whose text is plain (compiles to its own runes) matches exactly the
strings that contain the text. -/
theorem regexp.matchString_literal (pattern lit s : String)
    (hc : regexp.compile pattern.data = some (lit.data.map regexp.Inst.Rune)) :
    (regexp.MatchString pattern s).1 = true ↔ ∃ pre post : String, s = pre ++ lit ++ post := by
  simp only [regexp.MatchString, hc, regexp.search_iff, regexp.matchHere_runes]
  constructor
  · rintro ⟨pre, rest, h, post, rfl⟩
    refine ⟨String.mk pre, String.mk post, String.ext ?_⟩
    simp [String.data_append, h]
  · rintro ⟨pre, post, rfl⟩
    exact ⟨pre.data, lit.data ++ post.data, by simp [String.data_append], post.data, rfl⟩

theorem regexp.compile_s3 :
    regexp.compile "The specified bucket does not exist".data =
      some ("The specified bucket does not exist".data.map regexp.Inst.Rune) := by
  decide

theorem regexp.compile_github :
    regexp.compile "There isn\\\\'t a GitHub Pages site here".data =
      some ("There isn\\'t a GitHub Pages site here".data.map regexp.Inst.Rune) := by
  decide

/-! ## Lemmas on the catalog loop -/

theorem checkSubdomain.scan_frame (content : String) (result : SubdomainResult)
    (l : List Service) :
    (checkSubdomain.scan content result l).Subdomain = result.Subdomain ∧
    (checkSubdomain.scan content result l).CNAME = result.CNAME ∧
    (checkSubdomain.scan content result l).HTTPStatus = result.HTTPStatus ∧
    (checkSubdomain.scan content result l).ErrorMessage = result.ErrorMessage := by
  induction l with
  | nil => simp [checkSubdomain.scan]
  | cons s l ih =>
    simp only [checkSubdomain.scan]
    split <;> simp [ih]

theorem checkSubdomain.scan_none (content : String) (result : SubdomainResult)
    (l : List Service) (hr : result.Service = "")
    (h : ∀ s ∈ l, (regexp.MatchString s.Regex content).1 = false) :
    (checkSubdomain.scan content result l).Vulnerable = false ∧
    (checkSubdomain.scan content result l).Service = "" := by
  induction l with
  | nil => simp [checkSubdomain.scan, hr]
  | cons s l ih =>
    have hs := h s (List.mem_cons_self s l)
    simp only [checkSubdomain.scan, hs]
    exact ih fun t ht => h t (List.mem_cons_of_mem s ht)

theorem checkSubdomain.scan_first (content : String) (result : SubdomainResult)
    (before : List Service) (s : Service) (after : List Service)
    (hb : ∀ t ∈ before, (regexp.MatchString t.Regex content).1 = false)
    (hs : (regexp.MatchString s.Regex content).1 = true) :
    (checkSubdomain.scan content result (before ++ s :: after)).Vulnerable = true ∧
    (checkSubdomain.scan content result (before ++ s :: after)).Service = s.Name := by
  induction before with
  | nil => simp [checkSubdomain.scan, hs]
  | cons t before ih =>
    have ht := hb t (List.mem_cons_self t before)
    simp only [List.cons_append, checkSubdomain.scan, ht]
    exact ih fun x hx => hb x (List.mem_cons_of_mem t hx)

theorem checkSubdomain.scan_service (content : String) (result : SubdomainResult)
    (l : List Service) (hr : result.Service = "") (hl : ∀ s ∈ l, s.Name ≠ "") :
    ((checkSubdomain.scan content result l).Service ≠ "" ↔
      (checkSubdomain.scan content result l).Vulnerable = true) ∧
    ((checkSubdomain.scan content result l).Service ≠ "" →
      ∃ s ∈ l, (checkSubdomain.scan content result l).Service = s.Name) := by
  induction l with
  | nil => simp [checkSubdomain.scan, hr]
  | cons s l ih =>
    simp only [checkSubdomain.scan]
    split
    · have := hl s (List.mem_cons_self s l)
      simp [this]
    · obtain ⟨h1, h2⟩ := ih fun t ht => hl t (List.mem_cons_of_mem s ht)
      refine ⟨h1, fun h => ?_⟩
      obtain ⟨t, ht, e⟩ := h2 h
      exact ⟨t, List.mem_cons_of_mem s ht, e⟩

theorem services_names_ne : ∀ s ∈ services, s.Name ≠ "" := by decide

/-! ## Lemmas on `checkSubdomain` -/

theorem checkSubdomain.mem_calls_get (LookupCNAME : String → Except String String)
    (url : String) (client : http.Client) (u : String) :
    Call.Get u ∈ checkSubdomain.calls LookupCNAME url client ↔
      u = if !strings.HasPrefix url "http" then "http://" ++ url else url := by
  simp only [checkSubdomain.calls, checkSubdomain.run]
  split
  · simp
  · split <;> simp

theorem checkSubdomain.mem_calls_lookup (LookupCNAME : String → Except String String)
    (url : String) (client : http.Client) (host : String) :
    Call.LookupCNAME host ∈ checkSubdomain.calls LookupCNAME url client ↔
      host = strings.TrimPrefix
        (if !strings.HasPrefix url "http" then "http://" ++ url else url) "http://" := by
  simp only [checkSubdomain.calls, checkSubdomain.run]
  split
  · simp
  · split <;> simp

theorem checkSubdomain.subdomain_eq (LookupCNAME : String → Except String String)
    (url : String) (client : http.Client) :
    (checkSubdomain LookupCNAME url client).Subdomain = url := by
  simp only [checkSubdomain, checkSubdomain.run]
  cases LookupCNAME (strings.TrimPrefix
      (if !strings.HasPrefix url "http" then "http://" ++ url else url) "http://") <;>
    cases client.Get (if !strings.HasPrefix url "http" then "http://" ++ url else url) with
    | error e => rfl
    | ok resp =>
      dsimp only
      cases resp.Body with
      | error e => rfl
      | ok body => exact (checkSubdomain.scan_frame _ _ _).1

theorem checkSubdomain.of_get_error (LookupCNAME : String → Except String String)
    (url : String) (client : http.Client) (u e : String)
    (hcall : Call.Get u ∈ checkSubdomain.calls LookupCNAME url client)
    (hfail : client.Get u = .error e) :
    checkSubdomain LookupCNAME url client =
      { Subdomain := url
        CNAME :=
          match LookupCNAME (strings.TrimPrefix u "http://") with
          | .ok cname => cname
          | .error _ => ""
        ErrorMessage := "HTTP request failed: " ++ e } := by
  rw [checkSubdomain.mem_calls_get] at hcall
  subst hcall
  simp only [checkSubdomain, checkSubdomain.run, hfail]
  cases LookupCNAME (strings.TrimPrefix
      (if !strings.HasPrefix url "http" then "http://" ++ url else url) "http://") <;> rfl

theorem checkSubdomain.of_body_error (LookupCNAME : String → Except String String)
    (url : String) (client : http.Client) (u e : String) (resp : http.Response)
    (hcall : Call.Get u ∈ checkSubdomain.calls LookupCNAME url client)
    (hget : client.Get u = .ok resp) (hbody : resp.Body = .error e) :
    checkSubdomain LookupCNAME url client =
      { Subdomain := url
        CNAME :=
          match LookupCNAME (strings.TrimPrefix u "http://") with
          | .ok cname => cname
          | .error _ => ""
        HTTPStatus := resp.StatusCode
        ErrorMessage := "Failed to read response body: " ++ e } := by
  rw [checkSubdomain.mem_calls_get] at hcall
  subst hcall
  simp only [checkSubdomain, checkSubdomain.run, hget, hbody]
  cases LookupCNAME (strings.TrimPrefix
      (if !strings.HasPrefix url "http" then "http://" ++ url else url) "http://") <;> rfl

theorem checkSubdomain.of_body (LookupCNAME : String → Except String String)
    (url : String) (client : http.Client) (u body : String) (resp : http.Response)
    (hcall : Call.Get u ∈ checkSubdomain.calls LookupCNAME url client)
    (hget : client.Get u = .ok resp) (hbody : resp.Body = .ok body) :
    checkSubdomain LookupCNAME url client =
      checkSubdomain.scan body
        { Subdomain := url
          CNAME :=
            match LookupCNAME (strings.TrimPrefix u "http://") with
            | .ok cname => cname
            | .error _ => ""
          HTTPStatus := resp.StatusCode
          ErrorMessage :=
            match LookupCNAME (strings.TrimPrefix u "http://") with
            | .ok _ => ""
            | .error err => "DNS lookup failed: " ++ err } services := by
  rw [checkSubdomain.mem_calls_get] at hcall
  subst hcall
  simp only [checkSubdomain, checkSubdomain.run, hget, hbody]
  cases LookupCNAME (strings.TrimPrefix
      (if !strings.HasPrefix url "http" then "http://" ++ url else url) "http://") <;> rfl

/-- The loop's verdict does not depend on the fields it leaves alone. -/
theorem checkSubdomain.scan_verdict (content : String) (r₁ r₂ : SubdomainResult)
    (l : List Service) (h : r₁.Service = r₂.Service) :
    (checkSubdomain.scan content r₁ l).Vulnerable =
      (checkSubdomain.scan content r₂ l).Vulnerable ∧
    (checkSubdomain.scan content r₁ l).Service =
      (checkSubdomain.scan content r₂ l).Service := by
  induction l with
  | nil => simp [checkSubdomain.scan, h]
  | cons s l ih =>
    simp only [checkSubdomain.scan]
    split <;> simp [ih]

/-- C2: when the GET and the body read succeed, the first catalog entry (in the
order AWS/S3, GitHub, Heroku, Fastly, Shopify, BitBucket) whose pattern matches
the body gives `Vulnerable = true` and its `Name` as `Service`; when no entry
matches, `Vulnerable = false` and `Service` is empty; `HTTPStatus` is the status
code. A body containing "The specified bucket does not exist" gives AWS/S3, and
the body "hello" gives no match. -/
theorem checkSubdomain_first_match (LookupCNAME : String → Except String String)
    (url : String) (client : http.Client) (u body : String) (resp : http.Response)
    (hcall : Call.Get u ∈ checkSubdomain.calls LookupCNAME url client)
    (hget : client.Get u = .ok resp) (hbody : resp.Body = .ok body) :
    services.map Service.Name =
      ["AWS/S3", "GitHub", "Heroku", "Fastly", "Shopify", "BitBucket"] ∧
    (∀ before s after, services = before ++ s :: after →
      (∀ t ∈ before, (regexp.MatchString t.Regex body).1 = false) →
      (regexp.MatchString s.Regex body).1 = true →
      (checkSubdomain LookupCNAME url client).Vulnerable = true ∧
      (checkSubdomain LookupCNAME url client).Service = s.Name) ∧
    ((∀ s ∈ services, (regexp.MatchString s.Regex body).1 = false) →
      (checkSubdomain LookupCNAME url client).Vulnerable = false ∧
      (checkSubdomain LookupCNAME url client).Service = "") ∧
    (checkSubdomain LookupCNAME url client).HTTPStatus = resp.StatusCode ∧
    ((∃ pre post : String, body = pre ++ "The specified bucket does not exist" ++ post) →
      (checkSubdomain LookupCNAME url client).Vulnerable = true ∧
      (checkSubdomain LookupCNAME url client).Service = "AWS/S3") ∧
    (body = "hello" →
      (checkSubdomain LookupCNAME url client).Vulnerable = false ∧
      (checkSubdomain LookupCNAME url client).Service = "") := by
  rw [checkSubdomain.of_body LookupCNAME url client u body resp hcall hget hbody]
  refine ⟨by decide, ?_, ?_, ?_, ?_, ?_⟩
  · intro before s after hsplit hb hs
    rw [hsplit]
    exact checkSubdomain.scan_first body _ before s after hb hs
  · intro h
    exact checkSubdomain.scan_none body _ services rfl h
  · exact (checkSubdomain.scan_frame body _ services).2.2.1
  · intro h
    have hm : (regexp.MatchString "The specified bucket does not exist" body).1 = true :=
      (regexp.matchString_literal _ _ body regexp.compile_s3).mpr h
    exact checkSubdomain.scan_first body _ [] ⟨"AWS/S3", _⟩ _ (by simp) hm
  · rintro rfl
    exact checkSubdomain.scan_none "hello" _ services rfl (by decide)

/-- C3: the GET is made on the input itself when the input starts with the four
runes "http", and on "http://" followed by the input otherwise. An input that
starts with "http://" or "https://" is therefore requested unchanged, and one
that does not start with "http" gets the scheme; but the input "httpbin.org",
which has neither an "http://" nor an "https://" prefix, is requested as
"httpbin.org" and not as "http://httpbin.org". -/
theorem checkSubdomain_get_url_httpbin (LookupCNAME : String → Except String String)
    (client : http.Client) :
    (∀ url, Call.Get (if strings.HasPrefix url "http" then url else "http://" ++ url) ∈
      checkSubdomain.calls LookupCNAME url client) ∧
    (∀ url, strings.HasPrefix url "http://" = true ∨ strings.HasPrefix url "https://" = true →
      Call.Get url ∈ checkSubdomain.calls LookupCNAME url client) ∧
    (∀ url, strings.HasPrefix url "http" = false →
      Call.Get ("http://" ++ url) ∈ checkSubdomain.calls LookupCNAME url client) ∧
    strings.HasPrefix "httpbin.org" "http://" = false ∧
    strings.HasPrefix "httpbin.org" "https://" = false ∧
    Call.Get "httpbin.org" ∈ checkSubdomain.calls LookupCNAME "httpbin.org" client ∧
    Call.Get "http://httpbin.org" ∉ checkSubdomain.calls LookupCNAME "httpbin.org" client := by
  refine ⟨?_, ?_, ?_, by decide, by decide, ?_, ?_⟩
  · intro url
    rw [checkSubdomain.mem_calls_get]
    cases strings.HasPrefix url "http" <;> rfl
  · intro url h
    rw [checkSubdomain.mem_calls_get, strings.hasPrefix_http url h]
    rfl
  · intro url h
    rw [checkSubdomain.mem_calls_get, h]
    rfl
  · rw [checkSubdomain.mem_calls_get]
    decide
  · rw [checkSubdomain.mem_calls_get]
    decide

/-- C4: for every input the CNAME lookup is made on the input with a leading
"http://" removed, and no other prefix is removed: an input without that prefix is
looked up as it stands. So the input "https://a.example.com" is looked up as
"https://a.example.com" and not as "a.example.com". -/
theorem checkSubdomain_lookup_name_https (LookupCNAME : String → Except String String)
    (client : http.Client) :
    (∀ url, Call.LookupCNAME (strings.TrimPrefix url "http://") ∈
      checkSubdomain.calls LookupCNAME url client) ∧
    (∀ url, strings.HasPrefix url "http://" = false →
      Call.LookupCNAME url ∈ checkSubdomain.calls LookupCNAME url client) ∧
    strings.HasPrefix "https://a.example.com" "https://" = true ∧
    Call.LookupCNAME "https://a.example.com" ∈
      checkSubdomain.calls LookupCNAME "https://a.example.com" client ∧
    Call.LookupCNAME "a.example.com" ∉
      checkSubdomain.calls LookupCNAME "https://a.example.com" client := by
  have key : ∀ url, Call.LookupCNAME (strings.TrimPrefix url "http://") ∈
      checkSubdomain.calls LookupCNAME url client := by
    intro url
    rw [checkSubdomain.mem_calls_lookup]
    cases h : strings.HasPrefix url "http" with
    | true => rfl
    | false =>
      have h' : strings.HasPrefix url "http://" = false := by
        cases h' : strings.HasPrefix url "http://" with
        | false => rfl
        | true => rw [strings.hasPrefix_http url (Or.inl h')] at h; cases h
      have e : strings.TrimPrefix url "http://" = url := by
        simp [strings.TrimPrefix, h']
      rw [e]
      exact (strings.trimPrefix_append "http://" url).symm
  refine ⟨key, ?_, by decide, ?_, ?_⟩
  · intro url h
    have := key url
    simpa [strings.TrimPrefix, h] using this
  · rw [checkSubdomain.mem_calls_lookup]
    decide
  · rw [checkSubdomain.mem_calls_lookup]
    decide

/-- C5: when the GET fails, the result has `Vulnerable = false`, no `Service`,
`HTTPStatus = 0` and a non-empty `ErrorMessage`, and its `CNAME` is what the DNS
step alone gives: the canonical name when the lookup succeeded, empty when it
failed. -/
theorem checkSubdomain_get_failure (LookupCNAME : String → Except String String)
    (url : String) (client : http.Client) (u e : String)
    (hcall : Call.Get u ∈ checkSubdomain.calls LookupCNAME url client)
    (hfail : client.Get u = .error e) :
    (checkSubdomain LookupCNAME url client).Vulnerable = false ∧
    (checkSubdomain LookupCNAME url client).Service = "" ∧
    (checkSubdomain LookupCNAME url client).HTTPStatus = 0 ∧
    (checkSubdomain LookupCNAME url client).ErrorMessage ≠ "" ∧
    ∃ host, Call.LookupCNAME host ∈ checkSubdomain.calls LookupCNAME url client ∧
      (∀ cname, LookupCNAME host = .ok cname →
        (checkSubdomain LookupCNAME url client).CNAME = cname) ∧
      (∀ err, LookupCNAME host = .error err →
        (checkSubdomain LookupCNAME url client).CNAME = "") := by
  have hu := (checkSubdomain.mem_calls_get LookupCNAME url client u).mp hcall
  rw [checkSubdomain.of_get_error LookupCNAME url client u e hcall hfail]
  refine ⟨rfl, rfl, rfl, strings.append_ne_empty _ _ (by decide), ?_⟩
  refine ⟨strings.TrimPrefix u "http://", ?_, ?_, ?_⟩
  · rw [checkSubdomain.mem_calls_lookup, hu]
  · intro cname h
    simp only [h]
  · intro err h
    simp only [h]

/-- C6: when the DNS lookup fails and the GET and the body read succeed, `CNAME`
is empty, `ErrorMessage` is the "DNS lookup failed" message, `HTTPStatus` is the
status code, and `Vulnerable` and `Service` are those of the catalog loop on the
body: the same as with any resolver for which the lookup succeeds. -/
theorem checkSubdomain_dns_failure_only (LookupCNAME : String → Except String String)
    (url : String) (client : http.Client) (host err u body : String)
    (resp : http.Response)
    (hdns : Call.LookupCNAME host ∈ checkSubdomain.calls LookupCNAME url client)
    (hfail : LookupCNAME host = .error err)
    (hcall : Call.Get u ∈ checkSubdomain.calls LookupCNAME url client)
    (hget : client.Get u = .ok resp) (hbody : resp.Body = .ok body) :
    (checkSubdomain LookupCNAME url client).CNAME = "" ∧
    (checkSubdomain LookupCNAME url client).ErrorMessage = "DNS lookup failed: " ++ err ∧
    (checkSubdomain LookupCNAME url client).HTTPStatus = resp.StatusCode ∧
    (checkSubdomain LookupCNAME url client).Vulnerable =
      (checkSubdomain.scan body {} services).Vulnerable ∧
    (checkSubdomain LookupCNAME url client).Service =
      (checkSubdomain.scan body {} services).Service ∧
    ∀ (resolver : String → Except String String) (cname : String),
      resolver host = .ok cname →
      (checkSubdomain resolver url client).CNAME = cname ∧
      (checkSubdomain resolver url client).ErrorMessage = "" ∧
      (checkSubdomain resolver url client).HTTPStatus =
        (checkSubdomain LookupCNAME url client).HTTPStatus ∧
      (checkSubdomain resolver url client).Vulnerable =
        (checkSubdomain LookupCNAME url client).Vulnerable ∧
      (checkSubdomain resolver url client).Service =
        (checkSubdomain LookupCNAME url client).Service := by
  have hu := (checkSubdomain.mem_calls_get LookupCNAME url client u).mp hcall
  have hh := (checkSubdomain.mem_calls_lookup LookupCNAME url client host).mp hdns
  rw [← hu] at hh
  rw [hh] at hfail
  rw [checkSubdomain.of_body LookupCNAME url client u body resp hcall hget hbody]
  simp only [hfail]
  refine ⟨(checkSubdomain.scan_frame body _ services).2.1,
    (checkSubdomain.scan_frame body _ services).2.2.2,
    (checkSubdomain.scan_frame body _ services).2.2.1,
    (checkSubdomain.scan_verdict body _ _ services (by rfl)).1,
    (checkSubdomain.scan_verdict body _ _ services (by rfl)).2, ?_⟩
  intro resolver cname hres
  rw [hh] at hres
  have hcall' : Call.Get u ∈ checkSubdomain.calls resolver url client := by
    rw [checkSubdomain.mem_calls_get]
    exact hu
  rw [checkSubdomain.of_body resolver url client u body resp hcall' hget hbody]
  simp only [hres]
  refine ⟨(checkSubdomain.scan_frame body _ services).2.1,
    (checkSubdomain.scan_frame body _ services).2.2.2, ?_,
    (checkSubdomain.scan_verdict body _ _ services (by rfl)).1,
    (checkSubdomain.scan_verdict body _ _ services (by rfl)).2⟩
  rw [(checkSubdomain.scan_frame body _ services).2.2.1,
    (checkSubdomain.scan_frame body _ services).2.2.1]

/-- C7, as the code has it: each failing step overwrites `ErrorMessage`, so the
message is that of the last step that failed in the order DNS lookup, GET, body
read: the GET's when the GET fails, the body read's when the body read fails
(whatever the DNS outcome), the DNS lookup's only when the lookup fails and the
two later steps succeed; and it is empty exactly when no step failed. -/
theorem checkSubdomain_error_message_last_failure
    (LookupCNAME : String → Except String String) (url : String) (client : http.Client) :
    ∃ host u, Call.LookupCNAME host ∈ checkSubdomain.calls LookupCNAME url client ∧
      Call.Get u ∈ checkSubdomain.calls LookupCNAME url client ∧
      (∀ e, client.Get u = .error e →
        (checkSubdomain LookupCNAME url client).ErrorMessage = "HTTP request failed: " ++ e) ∧
      (∀ resp e, client.Get u = .ok resp → resp.Body = .error e →
        (checkSubdomain LookupCNAME url client).ErrorMessage =
          "Failed to read response body: " ++ e) ∧
      (∀ resp body e, client.Get u = .ok resp → resp.Body = .ok body →
        LookupCNAME host = .error e →
        (checkSubdomain LookupCNAME url client).ErrorMessage = "DNS lookup failed: " ++ e) ∧
      ((checkSubdomain LookupCNAME url client).ErrorMessage = "" ↔
        ∃ cname resp body, LookupCNAME host = .ok cname ∧ client.Get u = .ok resp ∧
          resp.Body = .ok body) := by
  have hcall : Call.Get (if !strings.HasPrefix url "http" then "http://" ++ url else url) ∈
      checkSubdomain.calls LookupCNAME url client :=
    (checkSubdomain.mem_calls_get LookupCNAME url client _).mpr rfl
  refine ⟨_, _, (checkSubdomain.mem_calls_lookup LookupCNAME url client _).mpr rfl, hcall,
    ?_, ?_, ?_, ?_⟩
  · intro e h
    rw [checkSubdomain.of_get_error LookupCNAME url client _ e hcall h]
  · intro resp e h hb
    rw [checkSubdomain.of_body_error LookupCNAME url client _ e resp hcall h hb]
  · intro resp body e h hb hd
    rw [checkSubdomain.of_body LookupCNAME url client _ body resp hcall h hb,
      (checkSubdomain.scan_frame body _ services).2.2.2]
    simp only [hd]
  · cases hg : client.Get (if !strings.HasPrefix url "http" then "http://" ++ url else url) with
    | error e =>
      rw [checkSubdomain.of_get_error LookupCNAME url client _ e hcall hg]
      simp only [reduceCtorEq, false_and, and_false, exists_false, exists_const, iff_false]
      exact strings.append_ne_empty _ _ (by decide)
    | ok resp =>
      cases hb : resp.Body with
      | error e =>
        rw [checkSubdomain.of_body_error LookupCNAME url client _ e resp hcall hg hb]
        have hne : "Failed to read response body: " ++ e ≠ "" :=
          strings.append_ne_empty _ _ (by decide)
        simp only [hne, false_iff, not_exists, not_and]
        intro cname resp' body _ hr hb'
        cases hr
        rw [hb] at hb'
        cases hb'
      | ok body =>
        rw [checkSubdomain.of_body LookupCNAME url client _ body resp hcall hg hb,
          (checkSubdomain.scan_frame body _ services).2.2.2]
        cases hd : LookupCNAME (strings.TrimPrefix
            (if !strings.HasPrefix url "http" then "http://" ++ url else url) "http://") with
        | error e =>
          have hne : "DNS lookup failed: " ++ e ≠ "" := strings.append_ne_empty _ _ (by decide)
          simp only [hne, false_iff, not_exists, not_and]
          intro cname resp' body' hr
          cases hr
        | ok cname =>
          simp only [true_iff]
          exact ⟨cname, resp, body, rfl, rfl, hb⟩

/-- C8: on every exit path `Service` is non-empty exactly when `Vulnerable` is
true, and a non-empty `Service` is the `Name` of an entry of `services`. -/
theorem checkSubdomain_service_iff_vulnerable
    (LookupCNAME : String → Except String String) (url : String) (client : http.Client) :
    ((checkSubdomain LookupCNAME url client).Service ≠ "" ↔
      (checkSubdomain LookupCNAME url client).Vulnerable = true) ∧
    ((checkSubdomain LookupCNAME url client).Service ≠ "" →
      ∃ s ∈ services, (checkSubdomain LookupCNAME url client).Service = s.Name) := by
  have hcall : Call.Get (if !strings.HasPrefix url "http" then "http://" ++ url else url) ∈
      checkSubdomain.calls LookupCNAME url client :=
    (checkSubdomain.mem_calls_get LookupCNAME url client _).mpr rfl
  cases hg : client.Get (if !strings.HasPrefix url "http" then "http://" ++ url else url) with
  | error e =>
    rw [checkSubdomain.of_get_error LookupCNAME url client _ e hcall hg]
    simp
  | ok resp =>
    cases hb : resp.Body with
    | error e =>
      rw [checkSubdomain.of_body_error LookupCNAME url client _ e resp hcall hg hb]
      simp
    | ok body =>
      rw [checkSubdomain.of_body LookupCNAME url client _ body resp hcall hg hb]
      exact checkSubdomain.scan_service body _ services rfl services_names_ne

theorem services_github_regex :
    ∀ s ∈ services, s.Name = "GitHub" →
      s.Regex = "There isn\\\\'t a GitHub Pages site here" := by
  decide

/-- C10, as the code has it: the GitHub entry matches exactly the bodies that
contain "There isn\'t a GitHub Pages site here" with a backslash before the
apostrophe; a fetched body that contains the sentence with a plain apostrophe,
does not contain it with the backslash, and matches no other catalog pattern
gives `Vulnerable = false` with `Service` empty, as does the body that is the
plain sentence alone. -/
theorem checkSubdomain_github_needs_backslash
    (LookupCNAME : String → Except String String) (url : String) (client : http.Client)
    (u body : String) (resp : http.Response)
    (hcall : Call.Get u ∈ checkSubdomain.calls LookupCNAME url client)
    (hget : client.Get u = .ok resp) (hbody : resp.Body = .ok body) :
    (∃ s ∈ services, s.Name = "GitHub") ∧
    (∀ s ∈ services, s.Name = "GitHub" →
      ((regexp.MatchString s.Regex body).1 = true ↔
        ∃ pre post : String, body = pre ++ "There isn\\'t a GitHub Pages site here" ++ post)) ∧
    ((∃ pre post : String, body = pre ++ "There isn't a GitHub Pages site here" ++ post) →
      (¬ ∃ pre post : String, body = pre ++ "There isn\\'t a GitHub Pages site here" ++ post) →
      (∀ s ∈ services, s.Name ≠ "GitHub" → (regexp.MatchString s.Regex body).1 = false) →
      (checkSubdomain LookupCNAME url client).Vulnerable = false ∧
      (checkSubdomain LookupCNAME url client).Service = "") ∧
    (body = "There isn't a GitHub Pages site here" →
      (checkSubdomain LookupCNAME url client).Vulnerable = false ∧
      (checkSubdomain LookupCNAME url client).Service = "") := by
  have hgh : ∀ s ∈ services, s.Name = "GitHub" →
      ((regexp.MatchString s.Regex body).1 = true ↔
        ∃ pre post : String,
          body = pre ++ "There isn\\'t a GitHub Pages site here" ++ post) := by
    intro s hs hn
    rw [services_github_regex s hs hn]
    exact regexp.matchString_literal _ _ body regexp.compile_github
  rw [checkSubdomain.of_body LookupCNAME url client u body resp hcall hget hbody]
  refine ⟨by decide, hgh, ?_, ?_⟩
  · intro _ hno hothers
    refine checkSubdomain.scan_none body _ services rfl fun s hs => ?_
    by_cases hn : s.Name = "GitHub"
    · cases hm : (regexp.MatchString s.Regex body).1 with
      | false => rfl
      | true => exact absurd ((hgh s hs hn).mp hm) hno
    · exact hothers s hs hn
  · rintro rfl
    exact checkSubdomain.scan_none _ _ services rfl (by decide)

/-- C10, as stated, fails: a body with the sentence once with a plain apostrophe
and once with the backslash contains the plain sentence and matches no catalog
pattern other than GitHub's, and the probe reports `Vulnerable = true` with
`Service = "GitHub"`. -/
theorem checkSubdomain_github_plain_and_backslash :
    Example.bothApostrophes =
      "" ++ "There isn't a GitHub Pages site here" ++
        ". There isn\\'t a GitHub Pages site here." ∧
    (∀ s ∈ services, s.Name ≠ "GitHub" →
      (regexp.MatchString s.Regex Example.bothApostrophes).1 = false) ∧
    (checkSubdomain Example.resolves "pages.example.com"
      (Example.serving 404 Example.bothApostrophes)).Vulnerable = true ∧
    (checkSubdomain Example.resolves "pages.example.com"
      (Example.serving 404 Example.bothApostrophes)).Service = "GitHub" := by
  refine ⟨by decide, by decide, by decide, by decide⟩

/-- C10 at the page GitHub serves, with a plain apostrophe: not reported. -/
theorem checkSubdomain_github_needs_backslash_witness :
    (checkSubdomain Example.resolves "pages.example.com"
      (Example.serving 404 "There isn't a GitHub Pages site here")).Vulnerable = false ∧
    (checkSubdomain Example.resolves "pages.example.com"
      (Example.serving 404 "There isn't a GitHub Pages site here")).Service = "" :=
  (checkSubdomain_github_needs_backslash Example.resolves "pages.example.com"
    (Example.serving 404 "There isn't a GitHub Pages site here")
    "http://pages.example.com" "There isn't a GitHub Pages site here"
    { StatusCode := 404, Body := .ok "There isn't a GitHub Pages site here" }
    (by decide) rfl rfl).2.2.2 rfl

/-- C2 at the two hosts of the scenario of the specification. -/
theorem checkSubdomain_first_match_witness :
    (checkSubdomain Example.noSuchHost "abandoned.example.com" Example.scenario).Vulnerable =
      true ∧
    (checkSubdomain Example.noSuchHost "abandoned.example.com" Example.scenario).Service =
      "AWS/S3" ∧
    (checkSubdomain Example.noSuchHost "abandoned.example.com" Example.scenario).HTTPStatus =
      404 ∧
    (checkSubdomain Example.noSuchHost "good.example.com" Example.scenario).Vulnerable = false ∧
    (checkSubdomain Example.noSuchHost "good.example.com" Example.scenario).HTTPStatus = 200 :=
  have bad := checkSubdomain_first_match Example.noSuchHost "abandoned.example.com"
    Example.scenario "http://abandoned.example.com"
    "<Error>The specified bucket does not exist</Error>"
    { StatusCode := 404, Body := .ok "<Error>The specified bucket does not exist</Error>" }
    (by decide) rfl rfl
  have good := checkSubdomain_first_match Example.noSuchHost "good.example.com"
    Example.scenario "http://good.example.com" "hello"
    { StatusCode := 200, Body := .ok "hello" } (by decide) rfl rfl
  ⟨(bad.2.2.2.2.1 ⟨"<Error>", "</Error>", by decide⟩).1,
    (bad.2.2.2.2.1 ⟨"<Error>", "</Error>", by decide⟩).2, bad.2.2.2.1,
    (good.2.2.2.2.2 rfl).1, good.2.2.2.1⟩

/-- C5 at a host that neither resolves nor answers. -/
theorem checkSubdomain_get_failure_witness :
    (checkSubdomain Example.noSuchHost "gone.example.com" Example.refused).Vulnerable = false ∧
    (checkSubdomain Example.noSuchHost "gone.example.com" Example.refused).Service = "" ∧
    (checkSubdomain Example.noSuchHost "gone.example.com" Example.refused).HTTPStatus = 0 ∧
    (checkSubdomain Example.noSuchHost "gone.example.com" Example.refused).ErrorMessage ≠ "" :=
  have h := checkSubdomain_get_failure Example.noSuchHost "gone.example.com" Example.refused
    "http://gone.example.com" "connection refused" (by decide) rfl
  ⟨h.1, h.2.1, h.2.2.1, h.2.2.2.1⟩

/-- C6 at a host that does not resolve and answers 404 with the S3 page. -/
theorem checkSubdomain_dns_failure_only_witness :
    (checkSubdomain Example.noSuchHost "abandoned.example.com" Example.scenario).CNAME = "" ∧
    (checkSubdomain Example.noSuchHost "abandoned.example.com" Example.scenario).ErrorMessage =
      "DNS lookup failed: " ++ "no such host" ∧
    (checkSubdomain Example.noSuchHost "abandoned.example.com" Example.scenario).HTTPStatus =
      404 :=
  have h := checkSubdomain_dns_failure_only Example.noSuchHost "abandoned.example.com"
    Example.scenario "abandoned.example.com" "no such host" "http://abandoned.example.com"
    "<Error>The specified bucket does not exist</Error>"
    { StatusCode := 404, Body := .ok "<Error>The specified bucket does not exist</Error>" }
    (by decide) rfl (by decide) rfl rfl
  ⟨h.1, h.2.1, h.2.2.1⟩

/-- C7, as stated, fails: when the lookup fails and then the GET fails, the
message left is the GET's, not the "DNS lookup failed" one. -/
theorem checkSubdomain_dns_message_overwritten :
    Call.LookupCNAME "gone.example.com" ∈
      checkSubdomain.calls Example.noSuchHost "gone.example.com" Example.refused ∧
    Example.noSuchHost "gone.example.com" = .error "no such host" ∧
    (checkSubdomain Example.noSuchHost "gone.example.com" Example.refused).ErrorMessage =
      "HTTP request failed: connection refused" ∧
    (checkSubdomain Example.noSuchHost "gone.example.com" Example.refused).ErrorMessage ≠
      "DNS lookup failed: no such host" := by
  refine ⟨by decide, rfl, by decide, by decide⟩

/-- C7 at a host that does not resolve and whose body fails to read: the message
is the body read's. -/
theorem checkSubdomain_error_message_last_failure_witness :
    (checkSubdomain Example.noSuchHost "gone.example.com"
      (Example.truncated 200)).ErrorMessage = "Failed to read response body: unexpected EOF" :=
  (checkSubdomain_error_message_last_failure Example.noSuchHost "gone.example.com"
    (Example.truncated 200)).elim fun _ h => h.elim fun _ h =>
      (h.2.2.2.1 { StatusCode := 200, Body := .error "unexpected EOF" } "unexpected EOF"
        rfl rfl).trans (by decide)

/-! ## Lemmas on the steps of `processSubdomains` -/

theorem processSubdomains.split_at {α : Type} (l : List α) (i : Nat) (a b : α)
    (h : l[i]? = some a) :
    ∃ pre post, l = pre ++ a :: post ∧ l.set i b = pre ++ b :: post := by
  induction l generalizing i with
  | nil => simp at h
  | cons x l ih =>
    cases i with
    | zero =>
      simp only [List.getElem?_cons_zero, Option.some.injEq] at h
      subst h
      exact ⟨[], l, rfl, rfl⟩
    | succ i =>
      simp only [List.getElem?_cons_succ] at h
      obtain ⟨pre, post, h1, h2⟩ := ih i h
      exact ⟨x :: pre, post, by rw [h1]; rfl, by rw [List.set_cons_succ, h2]; rfl⟩

theorem processSubdomains.init_inv (LookupCNAME : String → Except String String)
    (client : http.Client) (subdomains : List String) :
    processSubdomains.Inv LookupCNAME client subdomains
      (processSubdomains.init client subdomains) where
  capacity := rfl
  client_eq := rfl
  launched := rfl
  shared := by simp [processSubdomains.init]
  counter := rfl
  handed := by simp [processSubdomains.init]
  closed := by simp [processSubdomains.init]
  joined := by simp [processSubdomains.init]
  unread := fun _ _ => rfl
  drained := by simp [processSubdomains.init]

theorem processSubdomains.stepsLeft_init (client : http.Client) (subdomains : List String) :
    (processSubdomains.init client subdomains).stepsLeft = 4 * subdomains.length + 4 := by
  simp [processSubdomains.init, State.stepsLeft, PC.weight]

/-- Every step uses up one of the steps left. -/
theorem processSubdomains.step_stepsLeft (LookupCNAME : String → Except String String)
    (s s' : State) (t : Thread) (h : processSubdomains.step LookupCNAME s t = .next s') :
    s'.stepsLeft + 1 = s.stepsLeft := by
  cases t with
  | main =>
    cases hpc : s.pc with
    | Loop rest =>
      cases rest with
      | nil =>
        simp only [processSubdomains.step, hpc, Outcome.next.injEq] at h
        subst h
        simp [State.stepsLeft, PC.weight, hpc]
        omega
      | cons u rest =>
        simp only [processSubdomains.step, hpc, Outcome.next.injEq] at h
        subst h
        simp [State.stepsLeft, PC.weight, Phase.weight, hpc]
        omega
    | Wait =>
      simp only [processSubdomains.step, hpc] at h
      split at h
      · simp only [Outcome.next.injEq] at h
        subst h
        simp [State.stepsLeft, PC.weight, hpc]
        omega
      · cases h
    | Close =>
      simp only [processSubdomains.step, hpc] at h
      split at h
      · cases h
      · simp only [Outcome.next.injEq] at h
        subst h
        simp [State.stepsLeft, PC.weight, hpc]
        omega
    | Range =>
      simp only [processSubdomains.step, hpc] at h
      split at h
      · rename_i r rest hch
        simp only [Outcome.next.injEq] at h
        subst h
        simp [State.stepsLeft, PC.weight, hpc, hch]
        omega
      · rename_i hch
        split at h
        · simp only [Outcome.next.injEq] at h
          subst h
          simp [State.stepsLeft, PC.weight, hpc, hch]
          omega
        · cases h
    | Return =>
      simp [processSubdomains.step, hpc] at h
  | go i =>
    simp only [processSubdomains.step] at h
    cases hg : s.goroutines[i]? with
    | none => simp [hg] at h
    | some g =>
      simp only [hg] at h
      cases hp : g.phase with
      | Probing =>
        simp only [hp] at h
        split at h
        · cases h
        · split at h
          · simp only [Outcome.next.injEq] at h
            subst h
            obtain ⟨pre, post, h1, h2⟩ :=
              processSubdomains.split_at s.goroutines i g { g with phase := .Sent } hg
            simp only [State.stepsLeft, h2]
            rw [h1]
            simp [Phase.weight, hp]
            omega
          · cases h
      | Sent =>
        simp only [hp] at h
        split at h
        · cases h
        · simp only [Outcome.next.injEq] at h
          subst h
          obtain ⟨pre, post, h1, h2⟩ :=
            processSubdomains.split_at s.goroutines i g { g with phase := .Done } hg
          simp only [State.stepsLeft, h2]
          rw [h1]
          simp [Phase.weight, hp]
          omega
      | Done => simp [hp] at h

/-- The invariant is kept by every step of every thread. -/
theorem processSubdomains.step_inv (LookupCNAME : String → Except String String)
    (client : http.Client) (subdomains : List String) (s s' : State) (t : Thread)
    (hI : processSubdomains.Inv LookupCNAME client subdomains s)
    (h : processSubdomains.step LookupCNAME s t = .next s') :
    processSubdomains.Inv LookupCNAME client subdomains s' := by
  have hcap := hI.capacity
  have hcl := hI.client_eq
  have hlaunched := hI.launched
  have hshared := hI.shared
  have hcounter := hI.counter
  have hhanded := hI.handed
  have hclosed := hI.closed
  have hjoined := hI.joined
  have hunread := hI.unread
  have hdrained := hI.drained
  cases t with
  | main =>
    cases hpc : s.pc with
    | Loop rest =>
      rw [hpc] at hlaunched hclosed hjoined hunread hdrained
      cases rest with
      | nil =>
        simp only [processSubdomains.step, hpc, Outcome.next.injEq] at h
        subst h
        exact {
          capacity := hcap
          client_eq := hcl
          launched := hlaunched
          shared := hshared
          counter := hcounter
          handed := hhanded
          closed := by simpa using hclosed
          joined := by simp
          unread := fun _ _ => hunread (by simp) (by simp)
          drained := by simp }
      | cons u rest =>
        simp only [processSubdomains.step, hpc, Outcome.next.injEq] at h
        subst h
        exact {
          capacity := hcap
          client_eq := hcl
          launched := by simpa [PC.rest] using hlaunched
          shared := by
            intro g hg
            simp only [List.mem_append, List.mem_singleton] at hg
            rcases hg with hg | rfl
            · exact hshared g hg
            · exact hcl
          counter := by simp [List.countP_append, hcounter]
          handed := by simpa [List.filter_append] using hhanded
          closed := by simpa using hclosed
          joined := by simp
          unread := fun _ _ => hunread (by simp) (by simp)
          drained := by simp }
    | Wait =>
      rw [hpc] at hlaunched hclosed hjoined hunread hdrained
      simp only [processSubdomains.step, hpc] at h
      split at h
      · rename_i hwg
        simp only [Outcome.next.injEq] at h
        subst h
        exact {
          capacity := hcap
          client_eq := hcl
          launched := hlaunched
          shared := hshared
          counter := hcounter
          handed := hhanded
          closed := by simpa using hclosed
          joined := by
            intro _ g hg
            rw [hwg] at hcounter
            have h0 := List.countP_eq_zero.mp hcounter.symm g hg
            simpa using h0
          unread := fun _ _ => hunread (by simp) (by simp)
          drained := by simp }
      · cases h
    | Close =>
      rw [hpc] at hlaunched hclosed hjoined hunread hdrained
      simp only [processSubdomains.step, hpc] at h
      split at h
      · cases h
      · simp only [Outcome.next.injEq] at h
        subst h
        exact {
          capacity := hcap
          client_eq := hcl
          launched := hlaunched
          shared := hshared
          counter := hcounter
          handed := hhanded
          closed := by simp
          joined := fun _ => hjoined (by simp)
          unread := by simp
          drained := by simp }
    | Range =>
      rw [hpc] at hlaunched hclosed hjoined hunread hdrained
      simp only [processSubdomains.step, hpc] at h
      split at h
      · rename_i r rest hch
        simp only [Outcome.next.injEq] at h
        subst h
        exact {
          capacity := hcap
          client_eq := hcl
          launched := by simpa [hpc] using hlaunched
          shared := hshared
          counter := hcounter
          handed := by simpa [hch] using hhanded
          closed := by simpa [hpc] using hclosed
          joined := fun _ => hjoined (by simp)
          unread := by simp [hpc]
          drained := by simp [hpc] }
      · rename_i hch
        split at h
        · simp only [Outcome.next.injEq] at h
          subst h
          exact {
            capacity := hcap
            client_eq := hcl
            launched := hlaunched
            shared := hshared
            counter := hcounter
            handed := hhanded
            closed := by simpa using hclosed
            joined := fun _ => hjoined (by simp)
            unread := by simp
            drained := fun _ => hch }
        · cases h
    | Return =>
      simp [processSubdomains.step, hpc] at h
  | go i =>
    simp only [processSubdomains.step] at h
    cases hg : s.goroutines[i]? with
    | none => simp [hg] at h
    | some g =>
      simp only [hg] at h
      cases hp : g.phase with
      | Probing =>
        simp only [hp] at h
        split at h
        · cases h
        · split at h
          · simp only [Outcome.next.injEq] at h
            subst h
            obtain ⟨pre, post, h1, h2⟩ :=
              processSubdomains.split_at s.goroutines i g { g with phase := .Sent } hg
            have hmem : g ∈ s.goroutines := by simp [h1]
            have hnot : ¬ (s.pc = .Close ∨ s.pc = .Range ∨ s.pc = .Return) := by
              intro hq
              have := hjoined hq g hmem
              rw [hp] at this
              cases this
            simp only [h1] at hlaunched hshared hcounter hhanded
            exact {
              capacity := hcap
              client_eq := hcl
              launched := by simpa [h2] using hlaunched
              shared := by
                intro x hx
                simp only [h2, List.mem_append, List.mem_cons] at hx
                rcases hx with hx | rfl | hx
                · exact hshared x (by simp [hx])
                · exact hshared g (by simp)
                · exact hshared x (by simp [hx])
              counter := by simpa [h2, hp] using hcounter
              handed := by
                simp only [h2]
                simp [List.filter_append, List.filter_cons, hp] at hhanded ⊢
                rw [← List.append_assoc]
                refine (List.perm_append_singleton _ _).trans ?_
                exact (List.Perm.cons _ hhanded).trans List.perm_middle.symm
              closed := hclosed
              joined := fun hq => absurd hq hnot
              unread := hunread
              drained := fun hq => absurd (Or.inr (Or.inr hq)) hnot }
          · cases h
      | Sent =>
        simp only [hp] at h
        split at h
        · cases h
        · simp only [Outcome.next.injEq] at h
          subst h
          obtain ⟨pre, post, h1, h2⟩ :=
            processSubdomains.split_at s.goroutines i g { g with phase := .Done } hg
          have hmem : g ∈ s.goroutines := by simp [h1]
          have hnot : ¬ (s.pc = .Close ∨ s.pc = .Range ∨ s.pc = .Return) := by
            intro hq
            have := hjoined hq g hmem
            rw [hp] at this
            cases this
          simp only [h1] at hlaunched hshared hcounter hhanded
          exact {
            capacity := hcap
            client_eq := hcl
            launched := by simpa [h2] using hlaunched
            shared := by
              intro x hx
              simp only [h2, List.mem_append, List.mem_cons] at hx
              rcases hx with hx | rfl | hx
              · exact hshared x (by simp [hx])
              · exact hshared g (by simp)
              · exact hshared x (by simp [hx])
            counter := by
              simp only [h2]
              simp [hp] at hcounter ⊢
              omega
            handed := by simpa [h2, hp] using hhanded
            closed := hclosed
            joined := fun hq => absurd hq hnot
            unread := hunread
            drained := fun hq => absurd (Or.inr (Or.inr hq)) hnot }
      | Done => simp [hp] at h

/-- While a goroutine has still to send, the channel has room. -/
theorem processSubdomains.room (LookupCNAME : String → Except String String)
    (client : http.Client) (subdomains : List String) (s : State)
    (hI : processSubdomains.Inv LookupCNAME client subdomains s)
    (g : Goroutine) (hmem : g ∈ s.goroutines) (hp : g.phase = .Probing) :
    s.resultsChan.length < s.capacity := by
  obtain ⟨pre, post, h1⟩ := List.append_of_mem hmem
  have hlen := hI.handed.length_eq
  have hl := congrArg List.length hI.launched
  rw [h1] at hlen hl
  simp only [List.length_append, List.length_map, List.filter_append, List.filter_cons, hp,
    bne_self_eq_false, Bool.false_eq_true, ↓reduceIte, List.length_cons] at hlen hl
  have hpre := List.length_filter_le (fun g : Goroutine => g.phase != Phase.Probing) pre
  have hpost := List.length_filter_le (fun g : Goroutine => g.phase != Phase.Probing) post
  rw [hI.capacity]
  omega

/-- Under the invariant no thread panics. -/
theorem processSubdomains.no_panic (LookupCNAME : String → Except String String)
    (client : http.Client) (subdomains : List String) (s : State)
    (hI : processSubdomains.Inv LookupCNAME client subdomains s) (t : Thread) (msg : String) :
    processSubdomains.step LookupCNAME s t ≠ .panic msg := by
  intro h
  cases t with
  | main =>
    cases hpc : s.pc with
    | Loop rest => cases rest <;> simp [processSubdomains.step, hpc] at h
    | Wait =>
      simp only [processSubdomains.step, hpc] at h
      split at h <;> cases h
    | Close =>
      have hc : s.closed = false := by
        cases hcl : s.closed with
        | false => rfl
        | true =>
          have := hI.closed.mp hcl
          simp [hpc] at this
      simp [processSubdomains.step, hpc, hc] at h
    | Range =>
      simp only [processSubdomains.step, hpc] at h
      split at h
      · cases h
      · split at h <;> cases h
    | Return => simp [processSubdomains.step, hpc] at h
  | go i =>
    simp only [processSubdomains.step] at h
    cases hg : s.goroutines[i]? with
    | none => simp [hg] at h
    | some g =>
      have hmem : g ∈ s.goroutines := List.getElem?_mem hg
      simp only [hg] at h
      cases hp : g.phase with
      | Probing =>
        have hc : s.closed = false := by
          cases hcl : s.closed with
          | false => rfl
          | true =>
            have := hI.joined (Or.inr (hI.closed.mp hcl)) g hmem
            rw [hp] at this
            cases this
        simp only [hp, hc, Bool.false_eq_true, if_false] at h
        split at h <;> cases h
      | Sent =>
        have hwg : s.wg ≠ 0 := by
          rw [hI.counter]
          have : 0 < List.countP (fun g : Goroutine => g.phase != Phase.Done) s.goroutines :=
            List.countP_pos_iff.mpr ⟨g, hmem, by simp [hp]⟩
          omega
        simp [hp, hwg] at h
      | Done => simp [hp] at h

/-- Under the invariant a goroutine that has still to send can send. -/
theorem processSubdomains.can_send (LookupCNAME : String → Except String String)
    (client : http.Client) (subdomains : List String) (s : State)
    (hI : processSubdomains.Inv LookupCNAME client subdomains s)
    (i : Nat) (g : Goroutine) (hg : s.goroutines[i]? = some g) (hp : g.phase = .Probing) :
    ∃ s', processSubdomains.step LookupCNAME s (.go i) = .next s' := by
  have hmem : g ∈ s.goroutines := List.getElem?_mem hg
  have hroom := processSubdomains.room LookupCNAME client subdomains s hI g hmem hp
  have hc : s.closed = false := by
    cases hcl : s.closed with
    | false => rfl
    | true =>
      have := hI.joined (Or.inr (hI.closed.mp hcl)) g hmem
      rw [hp] at this
      cases this
  simp only [processSubdomains.step, hg, hp, hc, hroom]
  exact ⟨_, rfl⟩

/-- Under the invariant, until the caller has returned some thread can step. -/
theorem processSubdomains.progress (LookupCNAME : String → Except String String)
    (client : http.Client) (subdomains : List String) (s : State)
    (hI : processSubdomains.Inv LookupCNAME client subdomains s) (hpc : s.pc ≠ .Return) :
    ∃ t s', processSubdomains.step LookupCNAME s t = .next s' := by
  cases hpc' : s.pc with
  | Loop rest =>
    cases rest with
    | nil => exact ⟨.main, _, by simp only [processSubdomains.step, hpc']; rfl⟩
    | cons u rest => exact ⟨.main, _, by simp only [processSubdomains.step, hpc']; rfl⟩
  | Wait =>
    by_cases hwg : s.wg = 0
    · exact ⟨.main, _, by simp only [processSubdomains.step, hpc', hwg, if_true]; rfl⟩
    · have hpos :
          0 < List.countP (fun g : Goroutine => g.phase != Phase.Done) s.goroutines := by
        rw [← hI.counter]
        omega
      obtain ⟨g, hmem, hph⟩ := List.countP_pos_iff.mp hpos
      obtain ⟨i, hi, hgi⟩ := List.getElem_of_mem hmem
      have hg : s.goroutines[i]? = some g := by
        rw [List.getElem?_eq_getElem hi, hgi]
      cases hp : g.phase with
      | Probing =>
        obtain ⟨s', hs'⟩ :=
          processSubdomains.can_send LookupCNAME client subdomains s hI i g hg hp
        exact ⟨.go i, s', hs'⟩
      | Sent =>
        exact ⟨.go i, _, by simp only [processSubdomains.step, hg, hp, hwg, if_false]; rfl⟩
      | Done => simp [hp] at hph
  | Close =>
    have hc : s.closed = false := by
      cases hcl : s.closed with
      | false => rfl
      | true =>
        have := hI.closed.mp hcl
        simp [hpc'] at this
    exact ⟨.main, _, by
      simp only [processSubdomains.step, hpc', hc, Bool.false_eq_true, if_false]
      rfl⟩
  | Range =>
    cases hch : s.resultsChan with
    | cons r rest => exact ⟨.main, _, by simp only [processSubdomains.step, hpc', hch]; rfl⟩
    | nil =>
      have hc : s.closed = true := hI.closed.mpr (Or.inl hpc')
      exact ⟨.main, _, by simp only [processSubdomains.step, hpc', hch, hc, if_true]; rfl⟩
  | Return => exact absurd hpc' hpc

/-- Under the invariant, what the caller returns is the probes' results, one for
each input, in some order. -/
theorem processSubdomains.returned (LookupCNAME : String → Except String String)
    (client : http.Client) (subdomains : List String) (s : State)
    (hI : processSubdomains.Inv LookupCNAME client subdomains s) (hpc : s.pc = .Return) :
    s.results.Perm (subdomains.map fun url => checkSubdomain LookupCNAME url client) := by
  have hdone := hI.joined (Or.inr (Or.inr hpc))
  have hh := hI.handed
  rw [hI.drained hpc, List.append_nil] at hh
  have hl := hI.launched
  rw [hpc] at hl
  simp only [PC.rest, List.append_nil] at hl
  have hf : s.goroutines.filter (fun g => g.phase != Phase.Probing) = s.goroutines := by
    rw [List.filter_eq_self]
    intro g hg
    simp [hdone g hg]
  rw [hf] at hh
  have hm : s.goroutines.map (fun g => checkSubdomain LookupCNAME g.url g.client) =
      subdomains.map fun url => checkSubdomain LookupCNAME url client := by
    rw [← hl, List.map_map]
    apply List.map_congr_left
    intro g hg
    simp [hI.shared g hg]
  rw [hm] at hh
  exact hh

theorem processSubdomains.reachable_inv (LookupCNAME : String → Except String String)
    (client : http.Client) (subdomains : List String) (s : State)
    (h : processSubdomains.Reachable LookupCNAME client subdomains s) :
    processSubdomains.Inv LookupCNAME client subdomains s := by
  induction h with
  | init => exact processSubdomains.init_inv LookupCNAME client subdomains
  | step t _ hstep ih =>
    exact processSubdomains.step_inv LookupCNAME client subdomains _ _ t ih hstep

/-- A thread that steps is one of the runnable threads. -/
theorem processSubdomains.mem_runnable (LookupCNAME : String → Except String String)
    (s s' : State) (t : Thread) (h : processSubdomains.step LookupCNAME s t = .next s') :
    t ∈ processSubdomains.runnable LookupCNAME s := by
  simp only [processSubdomains.runnable, List.mem_filter, h, Outcome.runs, and_true]
  cases t with
  | main => simp [processSubdomains.threads]
  | go i =>
    simp only [processSubdomains.threads, List.mem_cons, reduceCtorEq, List.mem_map,
      List.mem_range, Thread.go.injEq, exists_eq_right, false_or]
    simp only [processSubdomains.step] at h
    cases hg : s.goroutines[i]? with
    | none => simp [hg] at h
    | some g => exact (List.getElem?_eq_some_iff.mp hg).1

/-- With the invariant and at least as much fuel as there are steps left, the run
ends with the caller returning the probes' results. -/
theorem processSubdomains.exec_returns (LookupCNAME : String → Except String String)
    (client : http.Client) (subdomains : List String) (sched : Nat → Nat) :
    ∀ (fuel : Nat) (s : State), processSubdomains.Inv LookupCNAME client subdomains s →
      s.stepsLeft ≤ fuel →
      ∃ results, processSubdomains.exec LookupCNAME sched fuel s = .ok results ∧
        results.Perm (subdomains.map fun url => checkSubdomain LookupCNAME url client) := by
  intro fuel
  induction fuel with
  | zero =>
    intro s hI hle
    have hpc : s.pc = .Return := by
      cases hpc : s.pc <;> simp [State.stepsLeft, PC.weight, hpc] at hle
      rfl
    exact ⟨s.results, by simp [processSubdomains.exec, hpc],
      processSubdomains.returned LookupCNAME client subdomains s hI hpc⟩
  | succ fuel ih =>
    intro s hI hle
    by_cases hpc : s.pc = .Return
    · exact ⟨s.results, by simp [processSubdomains.exec, hpc],
        processSubdomains.returned LookupCNAME client subdomains s hI hpc⟩
    · obtain ⟨t, s₁, hstep⟩ :=
        processSubdomains.progress LookupCNAME client subdomains s hI hpc
      have hmem := processSubdomains.mem_runnable LookupCNAME s s₁ t hstep
      simp only [processSubdomains.exec, hpc, if_false]
      cases hr : processSubdomains.runnable LookupCNAME s with
      | nil => simp [hr] at hmem
      | cons t₀ ts =>
        simp only []
        have hlt : sched fuel % (ts.length + 1) < (t₀ :: ts).length :=
          Nat.mod_lt _ (Nat.succ_pos _)
        have hpick : (t₀ :: ts).getD (sched fuel % (ts.length + 1)) t₀ ∈
            processSubdomains.runnable LookupCNAME s := by
          rw [hr, List.getD_eq_getElem _ _ hlt]
          exact List.getElem_mem _
        have hruns : (processSubdomains.step LookupCNAME s
            ((t₀ :: ts).getD (sched fuel % (ts.length + 1)) t₀)).runs = true :=
          (List.mem_filter.mp hpick).2
        cases hs : processSubdomains.step LookupCNAME s
            ((t₀ :: ts).getD (sched fuel % (ts.length + 1)) t₀) with
        | next s' =>
          simp only []
          have hI' := processSubdomains.step_inv LookupCNAME client subdomains s s' _ hI hs
          have hlt' := processSubdomains.step_stepsLeft LookupCNAME s s' _ hs
          exact ih s' hI' (by omega)
        | blocked =>
          rw [hs] at hruns
          cases hruns
        | exited =>
          rw [hs] at hruns
          cases hruns
        | panic msg =>
          exact absurd hs (processSubdomains.no_panic LookupCNAME client subdomains s hI _ msg)

/-- C1: under every scheduler and with every resolver and client,
`processSubdomains` returns, and what it returns is the probes' results, one for
each element of the input: the `Subdomain` fields are the input strings with
their multiplicities (a permutation of the input), the length is the input's,
and the empty input gives the empty output. -/
theorem processSubdomains_one_result_per_input
    (LookupCNAME : String → Except String String) (client : http.Client)
    (sched : Nat → Nat) (subdomains : List String) :
    ∃ results, processSubdomains LookupCNAME client sched subdomains = .ok results ∧
      results.Perm (subdomains.map fun url => checkSubdomain LookupCNAME url client) ∧
      (results.map SubdomainResult.Subdomain).Perm subdomains ∧
      results.length = subdomains.length ∧
      (subdomains = [] → results = []) := by
  obtain ⟨results, hrun, hperm⟩ :=
    processSubdomains.exec_returns LookupCNAME client subdomains sched
      (4 * subdomains.length + 4) (processSubdomains.init client subdomains)
      (processSubdomains.init_inv LookupCNAME client subdomains)
      (le_of_eq (processSubdomains.stepsLeft_init client subdomains))
  have hsub : (results.map SubdomainResult.Subdomain).Perm subdomains := by
    have := hperm.map SubdomainResult.Subdomain
    rw [List.map_map] at this
    have hid : subdomains.map (SubdomainResult.Subdomain ∘
        fun url => checkSubdomain LookupCNAME url client) = subdomains := by
      conv_rhs => rw [← List.map_id subdomains]
      apply List.map_congr_left
      intro url _
      exact checkSubdomain.subdomain_eq LookupCNAME url client
    rw [hid] at this
    exact this
  have hlen : results.length = subdomains.length := by
    have := hperm.length_eq
    simpa using this
  refine ⟨results, hrun, hperm, hsub, hlen, ?_⟩
  rintro rfl
  exact List.length_eq_zero.mp hlen

/-- C9: in every state a call of `processSubdomains` can reach, under any
interleaving: the channel's capacity is the number of inputs; the goroutines
launched so far are one per input hostname, in input order, each holding the one
client; no thread panics and a goroutine that has still to send can send (the
hand-off never blocks); the values received or in the channel are the results of
the goroutines that have sent, each once; past `wg.Wait()` every goroutine has
returned and there is one per input; at the return the slice holds every probe's
result; and while the caller has not returned some thread can step, each step
using up one of finitely many steps left. -/
theorem processSubdomains_waits_for_all_probes
    (LookupCNAME : String → Except String String) (client : http.Client)
    (subdomains : List String) (s : State)
    (h : processSubdomains.Reachable LookupCNAME client subdomains s) :
    s.capacity = subdomains.length ∧
    s.goroutines.map Goroutine.url ++ s.pc.rest = subdomains ∧
    (∀ g ∈ s.goroutines, g.client = client) ∧
    (∀ t msg, processSubdomains.step LookupCNAME s t ≠ .panic msg) ∧
    (∀ i g, s.goroutines[i]? = some g → g.phase = .Probing →
      ∃ s', processSubdomains.step LookupCNAME s (.go i) = .next s') ∧
    (s.results ++ s.resultsChan).Perm
      ((s.goroutines.filter fun g => g.phase != .Probing).map
        fun g => checkSubdomain LookupCNAME g.url g.client) ∧
    (s.pc = .Close ∨ s.pc = .Range ∨ s.pc = .Return →
      s.goroutines.map Goroutine.url = subdomains ∧
      ∀ g ∈ s.goroutines, g.phase = .Done) ∧
    (s.pc = .Return →
      s.resultsChan = [] ∧
      s.results.Perm (subdomains.map fun url => checkSubdomain LookupCNAME url client) ∧
      s.results.length = subdomains.length) ∧
    (s.pc ≠ .Return → ∃ t s', processSubdomains.step LookupCNAME s t = .next s') ∧
    (∀ t s', processSubdomains.step LookupCNAME s t = .next s' →
      s'.stepsLeft + 1 = s.stepsLeft) := by
  have hI := processSubdomains.reachable_inv LookupCNAME client subdomains s h
  refine ⟨hI.capacity, hI.launched, hI.shared,
    processSubdomains.no_panic LookupCNAME client subdomains s hI,
    processSubdomains.can_send LookupCNAME client subdomains s hI,
    hI.handed, ?_, ?_,
    processSubdomains.progress LookupCNAME client subdomains s hI,
    fun t s' hs => processSubdomains.step_stepsLeft LookupCNAME s s' t hs⟩
  · intro hq
    refine ⟨?_, hI.joined hq⟩
    have hl := hI.launched
    rcases hq with hq | hq | hq <;> rw [hq] at hl <;> simpa [PC.rest] using hl
  · intro hq
    have hperm := processSubdomains.returned LookupCNAME client subdomains s hI hq
    refine ⟨hI.drained hq, hperm, ?_⟩
    have := hperm.length_eq
    simpa using this

theorem processSubdomains.reachable_after (LookupCNAME : String → Except String String)
    (client : http.Client) (subdomains : List String) (ts : List Thread) :
    ∀ s, processSubdomains.Reachable LookupCNAME client subdomains s →
      processSubdomains.Reachable LookupCNAME client subdomains
        (processSubdomains.after LookupCNAME s ts) := by
  induction ts with
  | nil => exact fun s h => h
  | cons t ts ih =>
    intro s h
    simp only [processSubdomains.after]
    split
    · rename_i s' hs
      exact ih s' (processSubdomains.Reachable.step t h hs)
    · exact ih s h

/-- C9 on the two hosts of the scenario, the second goroutine sending first: the
caller has returned, with both results, the second host's first. -/
theorem processSubdomains_waits_for_all_probes_witness :
    Example.outOfOrder.pc = .Return ∧
    Example.outOfOrder.results.map SubdomainResult.Subdomain =
      ["abandoned.example.com", "good.example.com"] ∧
    Example.outOfOrder.results.length =
      ["good.example.com", "abandoned.example.com"].length ∧
    ∀ g ∈ Example.outOfOrder.goroutines, g.phase = .Done :=
  have h := processSubdomains_waits_for_all_probes Example.noSuchHost Example.scenario
    ["good.example.com", "abandoned.example.com"] Example.outOfOrder
    (processSubdomains.reachable_after Example.noSuchHost Example.scenario _ _ _
      processSubdomains.Reachable.init)
  have hpc : Example.outOfOrder.pc = .Return := by decide
  ⟨hpc, by decide, (h.2.2.2.2.2.2.2.1 hpc).2.2, (h.2.2.2.2.2.2.1 (Or.inr (Or.inr hpc))).2⟩

end SubTakeOver
